import Mathlib

/-!
# Shallow embedding of the shape vision-cache subsystem of PlanarAlly

This file embeds, in Lean 4, the cache/invalidation logic of
`src/client/src/game/shapes/shape.ts`: the `visionPolygon` getter with its
two-level cache (vision iteration + floor redraw iteration), the
`recalcVisionBbox` bounding-box derivation, the `refPoint`/`angle`/`center`
setters, `resetVisionIteration`, `updateShapeVision`,
`setPositionRepresentation`, `invalidatePoints` and `updateLayerPoints`.

Coordinates are embedded as integers (the TS code uses IEEE doubles, but every
property proved here is about control flow, cache fields and min/max
comparisons, none of which depend on float rounding). External collaborators
(`visionState`, `floorState`, `computeVisibility`, `auraSystem`,
`getProperties`, the `g2lx`/`g2ly` render transforms, `getUnitDistance`, and
the `BoundingRect` set operations whose source is outside the analysed tree)
are abstracted into an `Env` record of opaque parameters, and calls into the
mutable outside world (`visionState.addToTriangulation`, layer invalidation,
...) are recorded as an event trace.
-/

namespace PlanarAlly

/-- A point of the global (world) plane. `GlobalPoint`/`[number, number]` in TS. -/
abbrev Point := Int × Int

/-- The two obstruction universes (`TriangulationTarget` in `vision/state.ts`). -/
inductive TriTarget where
  | vision
  | movement
deriving DecidableEq, Repr

/-- An axis-aligned rectangle, as built by `new BoundingRect(topLeft, w, h)`. -/
structure Rect where
  topLeftX : Int
  topLeftY : Int
  w : Int
  h : Int
deriving DecidableEq, Repr

/-- One command of a `Path2D` object. -/
inductive PathCmd where
  | moveTo (x y : Int)
  | lineTo (x y : Int)
  | closePath
deriving DecidableEq, Repr

/-- A `Path2D` is embedded as its list of recorded commands. -/
abbrev Path2D := List PathCmd

/-- The slice of `ShapeProperties` (`getProperties(this.id)`) the claims use. -/
structure Props where
  isToken : Bool
  blocksVision : Bool
  blocksMovement : Bool
deriving DecidableEq, Repr

/-- The slice of an aura (`auraSystem.getAll(this.id, true)`) used by
`getAuraAABB`. -/
structure Aura where
  visionSource : Bool
  value : Int
  dim : Int
deriving DecidableEq, Repr

/-- An observable call into one of the external collaborators. The embedded
operations return, next to the updated shape state, the list of such calls in
program order. -/
inductive GameEvent where
  /-- `visionState.deleteFromTriangulation({ target, shape })` -/
  | deleteFromTriangulation (target : TriTarget) (shape : Nat)
  /-- `visionState.addToTriangulation({ target, shape })` -/
  | addToTriangulation (target : TriTarget) (shape : Nat)
  /-- `visionState.recalculateVision(floorId)` -/
  | recalculateVision (floor : Nat)
  /-- `visionState.recalculateMovement(floorId)` -/
  | recalculateMovement (floor : Nat)
  /-- `this.layer!.invalidate(skipLightUpdate)` via `Shape.invalidate` -/
  | invalidateLayer (skipLightUpdate : Bool)
  /-- `floorSystem.invalidateLightAllFloors()` -/
  | invalidateLightAllFloors
  /-- `this.layer?.updateSectors(this.id, aabb)` -/
  | updateSectors (shape : Nat) (aabb : Rect)
  /-- `floorSystem.getLayer(floor, LayerName.Draw)?.invalidate(true)` -/
  | invalidateDrawLayer (skipLightUpdate : Bool)
deriving DecidableEq, Repr

/-- The mutable fields of one `Shape` instance that the analysed methods read
or write, together with the `points` map of the shape's layer
(`Map<string, Set<LocalId>>`, embedded as an association list keyed by the
stringified point, holding a `Finset` of shape ids). -/
structure SState where
  /-- `this.id` -/
  id : Nat
  /-- `this.floorId` -/
  floorId : Option Nat
  /-- `this.layerName` (only definedness matters to the embedded methods) -/
  layerName : Option Unit
  /-- `this._refPoint` -/
  refPoint : Point
  /-- `this._angle` -/
  angle : Int
  /-- `this._center` -/
  center : Point
  /-- `this._points` (via the `points` getter) -/
  points : List Point
  /-- `this.isSnappable` -/
  isSnappable : Bool
  /-- `this.floorIteration` (initialised to `-1`) -/
  floorIteration : Int
  /-- `this.visionIteration` (initialised to `-1`) -/
  visionIteration : Int
  /-- `this._visionPolygon` -/
  visionPolygon? : Option (List Point)
  /-- `this._visionPath` -/
  visionPath? : Option Path2D
  /-- `this._visionBbox` -/
  visionBbox? : Option Rect
  /-- `this.layer.points` — the snap-point map of the shape's layer -/
  layerPoints : List (String × Finset Nat)
deriving DecidableEq

/-- The external collaborators, snapshotted for the duration of one embedded
call (the TS code is single threaded, so no collaborator mutates between the
reads a single method performs). `rectIntersect`, `rectUnion` and
`getUnitDistance` are kept opaque: `BoundingRect` and `core/conversions` are
outside the analysed sources. -/
structure Env where
  /-- `floorState.readonly.iteration` -/
  floorStateIteration : Int
  /-- `visionState.getVisionIteration(floorId)` -/
  visionIter : Nat → Int
  /-- `computeVisibility(center, target, floorId)` from `vision/te.ts` -/
  computeVis : Point → TriTarget → Nat → List Point
  /-- render transform `g2lx` -/
  g2lx : Int → Int
  /-- render transform `g2ly` -/
  g2ly : Int → Int
  /-- `getUnitDistance` from `core/conversions` -/
  getUnitDistance : Int → Int
  /-- `auraSystem.getAll(this.id, true)` -/
  auras : List Aura
  /-- `getProperties(this.id)` -/
  props : Props
  /-- the subclass hook `this.__center()` as a function of the shape state -/
  centerOf : SState → Point
  /-- `BoundingRect.intersect` -/
  rectIntersect : Rect → Rect → Rect
  /-- `BoundingRect.union` -/
  rectUnion : Rect → Rect → Rect
  /-- whether `floorSystem.getFloor({ id: this.floorId })` resolves -/
  floorResolves : Bool
  /-- whether `floorSystem.getLayer(floor, this.layerName)` resolves -/
  layerResolves : Bool
  /-- whether `floorSystem.getLayer(floor, LayerName.Draw)` resolves -/
  drawLayerResolves : Bool

/-- Whether `this.layer` is defined: `get layer` returns `undefined` unless
`this.floor` resolves and `this.layerName` is set and the registry lookup
succeeds. -/
def layerDefined (env : Env) (s : SState) : Bool :=
  s.floorId.isSome && env.floorResolves && s.layerName.isSome && env.layerResolves

/-- `resetVisionIteration(): void { this.visionIteration = -1; }` -/
def resetVisionIteration (s : SState) : SState :=
  { s with visionIteration := -1 }

/-- One step of the min/max scan in `recalcVisionBbox` (fields
`leftX, rightX, topY, botY`), mirroring the `if/else if` pairs of the source
loop body. -/
def bboxStep (acc : Int × Int × Int × Int) (p : Point) : Int × Int × Int × Int :=
  let (leftX, rightX, topY, botY) := acc
  let (x, y) := p
  let lr := if leftX > x then (x, rightX) else if rightX < x then (leftX, x) else (leftX, rightX)
  let tb := if topY > y then (y, botY) else if botY < y then (topY, y) else (topY, botY)
  (lr.1, lr.2, tb.1, tb.2)

/-- `getAABB(delta = 0)`: the axis-aligned bounding box of `this.points`
(a `5×5` box at `refPoint` when there are no points). The source scans
`points.slice(1)` with four independent `if`s starting from the first point. -/
def getAABB (s : SState) (delta : Int) : Rect :=
  match s.points with
  | [] => ⟨s.refPoint.1, s.refPoint.2, 5, 5⟩
  | p :: ps =>
    let scan := ps.foldl
      (fun (acc : Int × Int × Int × Int) (q : Point) =>
        let (minx, maxx, miny, maxy) := acc
        let minx := if q.1 < minx then q.1 else minx
        let maxx := if q.1 > maxx then q.1 else maxx
        let miny := if q.2 < miny then q.2 else miny
        let maxy := if q.2 > maxy then q.2 else maxy
        (minx, maxx, miny, maxy))
      (p.1, p.1, p.2, p.2)
    ⟨scan.1 - delta, scan.2.2.1 - delta,
      scan.2.1 - scan.1 + 2 * delta, scan.2.2.2 - scan.2.2.1 + 2 * delta⟩

/-- `getAuraAABB(options?)`: starts from `getAABB()` and unions in a square of
half-side `getUnitDistance(aura.value + aura.dim)` centred (by corner offset)
at `refPoint` for every aura, skipping non-vision-source auras when
`onlyVisionSources` is set. -/
def getAuraAABB (env : Env) (s : SState) (onlyVisionSources : Bool) : Rect :=
  env.auras.foldl
    (fun aabb aura =>
      if onlyVisionSources && !aura.visionSource then aabb
      else
        let range := env.getUnitDistance (aura.value + aura.dim)
        env.rectUnion aabb
          ⟨s.refPoint.1 - range, s.refPoint.2 - range, range * 2, range * 2⟩)
    (getAABB s 0)

/-- `recalcVisionBbox()`: clears `_visionBbox` when `_visionPolygon` is absent
or empty; otherwise stores the min/max scan box of the polygon intersected
with `getAuraAABB({ onlyVisionSources: true })`. -/
def recalcVisionBbox (env : Env) (s : SState) : SState :=
  match s.visionPolygon? with
  | none => { s with visionBbox? := none }
  | some [] => { s with visionBbox? := none }
  | some (p :: ps) =>
    let scan := (p :: ps).foldl bboxStep (p.1, p.1, p.2, p.2)
    { s with visionBbox? := some (env.rectIntersect
        ⟨scan.1, scan.2.2.1, scan.2.1 - scan.1, scan.2.2.2 - scan.2.2.1⟩
        (getAuraAABB env s true)) }

/-- The render-space `Path2D` built inside `get visionPolygon`:
`moveTo` on the first polygon point, a `lineTo` for every polygon point
(the first included), then `closePath`. Defined on a nonempty polygon;
`get visionPolygon` handles the empty case separately. -/
def buildVisionPath (env : Env) (p0 : Point) (rest : List Point) : Path2D :=
  PathCmd.moveTo (env.g2lx p0.1) (env.g2ly p0.2) ::
    ((p0 :: rest).map (fun p => PathCmd.lineTo (env.g2lx p.1) (env.g2ly p.2)) ++
      [PathCmd.closePath])

/-- The outcome of one read of the `visionPolygon` getter. -/
structure ReadResult where
  /-- the returned `Path2D`; `none` when the read throws a `TypeError`
  (indexing `this._visionPolygon[0]![0]` with an empty polygon) -/
  path : Option Path2D
  /-- the shape state after the read, including the partial updates committed
  before a throw -/
  state : SState
  /-- whether the read invoked `computeVisibility` -/
  computedVision : Bool
  /-- whether the read entered the path-rebuild branch (when it did not, the
  returned `Path2D` is the very object stored in `_visionPath`) -/
  rebuiltPath : Bool
deriving DecidableEq

/-- First stage of `get visionPolygon` (lines `if (this._visionPolygon ===
undefined || visionAltered) { ... }`): when `_visionPolygon` is absent or the
floor's vision iteration moved, invoke `computeVisibility`, store the polygon
and the observed iteration, and rederive the bounding box. Returns the updated
state together with whether `computeVisibility` was invoked. -/
def visionRefresh (env : Env) (s : SState) (fid : Nat) : SState × Bool :=
  if s.visionPolygon?.isNone || (env.visionIter fid != s.visionIteration) then
    (recalcVisionBbox env { s with
      visionPolygon? := some (env.computeVis s.center TriTarget.vision fid),
      visionIteration := env.visionIter fid }, true)
  else (s, false)

/-- Second stage of `get visionPolygon` (lines `if (this._visionPath ===
undefined || floorIteration != this.floorIteration || visionAltered) { ... }`):
rebuild the render-space `Path2D` from `_visionPolygon` and store the floor
redraw iteration; otherwise return the stored path object unchanged. A `none`
path records the `TypeError` the source throws when `_visionPolygon[0]!` is
indexed on an empty polygon. -/
def pathRefresh (env : Env) (s1 : SState) (visionAltered computed : Bool) : ReadResult :=
  if s1.visionPath?.isNone || (env.floorStateIteration != s1.floorIteration) || visionAltered then
    match s1.visionPolygon? with
    | some (p0 :: rest) =>
      let path := buildVisionPath env p0 rest
      ⟨some path, { s1 with visionPath? := some path, floorIteration := env.floorStateIteration },
        computed, true⟩
    | _ => ⟨none, s1, computed, true⟩
  else
    ⟨s1.visionPath?, s1, computed, false⟩

/-- The body of `get visionPolygon` for a shape with a defined floor: the
vision-level cache stage followed by the render-path stage. -/
def visionPolygonFloor (env : Env) (s : SState) (fid : Nat) : ReadResult :=
  let r := visionRefresh env s fid
  pathRefresh env r.1 (env.visionIter fid != s.visionIteration) r.2

/-- `get visionPolygon(): Path2D` — the two-level cached read. An undefined
floor returns a fresh empty `Path2D` without touching any field. -/
def visionPolygon (env : Env) (s : SState) : ReadResult :=
  match s.floorId with
  | none => ⟨some [], s, false, false⟩
  | some fid => visionPolygonFloor env s fid

/-- The removal pass of `updateLayerPoints`: for every map entry holding this
shape's id, delete the whole entry when the set has size 1, otherwise delete
just the id (JS `Map` iteration remains well defined under deletion of the
entry being visited). -/
def layerPointsRemove (id : Nat) (m : List (String × Finset Nat)) :
    List (String × Finset Nat) :=
  m.filterMap (fun e =>
    if id ∈ e.2 then
      if e.2.card = 1 then none else some (e.1, e.2.erase id)
    else some e)

/-- The insertion step of `updateLayerPoints` for one point key `strp`:
`add` to the existing set when the key is present, otherwise set the key to a
fresh singleton set. -/
def layerPointsAdd (id : Nat) (strp : String) (m : List (String × Finset Nat)) :
    List (String × Finset Nat) :=
  if m.any (fun e => e.1 = strp) then
    m.map (fun e => if e.1 = strp then (e.1, insert id e.2) else e)
  else
    m ++ [(strp, {id})]

/-- `JSON.stringify(point)` for a `[number, number]` point. -/
def stringifyPoint (p : Point) : String :=
  "[" ++ toString p.1 ++ "," ++ toString p.2 ++ "]"

/-- `updateLayerPoints()`: removes this shape's id from every entry of the
layer's snap-point map, then registers the id under the stringified key of
every current point. When `this.layer` is undefined both loops are no-ops
(`this.layer?.points ?? []` is empty, and the guarded insert is skipped). -/
def updateLayerPoints (env : Env) (s : SState) : SState :=
  if layerDefined env s then
    let removed := layerPointsRemove s.id s.layerPoints
    { s with layerPoints :=
        s.points.foldl (fun m p => layerPointsAdd s.id (stringifyPoint p) m) removed }
  else s

/-- `invalidatePoints()`: `this.layer?.updateSectors(this.id, this.getAuraAABB())`
followed by `updateLayerPoints()` when the shape is snappable. The optional
chain emits no call (and does not evaluate `getAuraAABB`) when `this.layer`
is undefined. -/
def invalidatePoints (env : Env) (s : SState) : SState × List GameEvent :=
  let evs := if layerDefined env s then
      [GameEvent.updateSectors s.id (getAuraAABB env s false)]
    else []
  let s' := if s.isSnappable then updateLayerPoints env s else s
  (s', evs)

/-- `set center(centerPoint)`: stores the new centre and eagerly clears the
cached vision polygon. -/
def setCenter (s : SState) (centerPoint : Point) : SState :=
  { s with center := centerPoint, visionPolygon? := none }

/-- `set angle(angle)`: stores the new angle and calls `invalidatePoints()`;
no vision-cache field is touched. -/
def setAngle (env : Env) (s : SState) (angle : Int) : SState × List GameEvent :=
  invalidatePoints env { s with angle := angle }

/-- `set refPoint(point)`: stores the new reference point, recomputes
`_center` via `__center()`, resets the vision iteration sentinel, calls
`invalidatePoints()`, and — for tokens on a resolving floor — invalidates the
Draw layer. -/
def setRefPoint (env : Env) (s : SState) (point : Point) : SState × List GameEvent :=
  let s1 := { s with refPoint := point }
  let s2 := { s1 with center := env.centerOf s1 }
  let s3 := resetVisionIteration s2
  let r := invalidatePoints env s3
  let evs2 :=
    if env.props.isToken then
      if r.1.floorId.isSome && env.floorResolves then
        if env.drawLayerResolves then [GameEvent.invalidateDrawLayer true] else []
      else []
    else []
  (r.1, r.2 ++ evs2)

/-- `invalidate(skipLightUpdate)`: delegates to the layer when `this.layerName`
is defined. -/
def invalidate (s : SState) (skipLightUpdate : Bool) : List GameEvent :=
  if s.layerName.isSome then [GameEvent.invalidateLayer skipLightUpdate] else []

/-- `updateShapeVision(alteredMovement, alteredVision)`: for each target kind
whose blocker flag is set and whose altered flag is false, re-register the
shape in that target's triangulation (delete then add) and, when the shape is
on a floor, bump that target's iteration counter; in between, invalidate the
shape's layer and the light of all floors. Returns the emitted calls in
program order; no shape field is written. -/
def updateShapeVision (env : Env) (s : SState) (alteredMovement alteredVision : Bool) :
    List GameEvent :=
  (if env.props.blocksVision && !alteredVision then
    [GameEvent.deleteFromTriangulation TriTarget.vision s.id,
     GameEvent.addToTriangulation TriTarget.vision s.id] ++
    (match s.floorId with
     | some fid => [GameEvent.recalculateVision fid]
     | none => [])
  else []) ++
  invalidate s true ++
  [GameEvent.invalidateLightAllFloors] ++
  (if env.props.blocksMovement && !alteredMovement then
    [GameEvent.deleteFromTriangulation TriTarget.movement s.id,
     GameEvent.addToTriangulation TriTarget.movement s.id] ++
    (match s.floorId with
     | some fid => [GameEvent.recalculateMovement fid]
     | none => [])
  else [])

/-- A position representation, as consumed by `setPositionRepresentation`. -/
structure PositionRep where
  angle : Int
  points : List Point

/-- `setPositionRepresentation(position)`: returns unchanged on an empty point
list; otherwise stores the first point as `_refPoint`, recomputes `_center`,
assigns `this.angle` (through the `angle` setter), resets the vision
iteration, runs `updateShapeVision(false, false)` and — for tokens on a
resolving floor — invalidates the Draw layer. -/
def setPositionRepresentation (env : Env) (s : SState) (position : PositionRep) :
    SState × List GameEvent :=
  match position.points with
  | [] => (s, [])
  | p :: _ =>
    let s1 := { s with refPoint := p }
    let s2 := { s1 with center := env.centerOf s1 }
    let r := setAngle env s2 position.angle
    let s4 := resetVisionIteration r.1
    let e2 := updateShapeVision env s4 false false
    let e3 :=
      if env.props.isToken then
        if s4.floorId.isSome && env.floorResolves then
          if env.drawLayerResolves then [GameEvent.invalidateDrawLayer true] else []
        else []
      else []
    (s4, r.2 ++ e2 ++ e3)

/-- Freshness of the two-level cache with respect to the current environment:
the stored vision iteration matches, both cached objects exist, and the
stored floor redraw iteration matches. -/
def cacheFresh (env : Env) (s : SState) (fid : Nat) : Prop :=
  env.visionIter fid = s.visionIteration ∧
  (∃ poly, s.visionPolygon? = some poly) ∧
  (∃ path, s.visionPath? = some path) ∧
  env.floorStateIteration = s.floorIteration

/-- A concrete environment used by the witnesses. -/
def testEnv : Env where
  floorStateIteration := 10
  visionIter := fun _ => 5
  computeVis := fun c _ _ => [c, (c.1 + 1, c.2), (c.1, c.2 + 1)]
  g2lx := fun x => 2 * x
  g2ly := fun y => 2 * y + 1
  getUnitDistance := fun d => 3 * d
  auras := [⟨true, 1, 2⟩, ⟨false, 2, 0⟩]
  props := ⟨true, true, true⟩
  centerOf := fun s => s.refPoint
  rectIntersect := fun a b =>
    ⟨max a.topLeftX b.topLeftX, max a.topLeftY b.topLeftY, min a.w b.w, min a.h b.h⟩
  rectUnion := fun a b =>
    ⟨min a.topLeftX b.topLeftX, min a.topLeftY b.topLeftY, a.w + b.w, a.h + b.h⟩
  floorResolves := true
  layerResolves := true
  drawLayerResolves := true

/-- A concrete shape state whose two-level cache is fresh for `testEnv`. -/
def freshState : SState where
  id := 7
  floorId := some 0
  layerName := some ()
  refPoint := (2, 3)
  angle := 0
  center := (4, 5)
  points := [(0, 0), (10, 0), (10, 10)]
  isSnappable := true
  floorIteration := 10
  visionIteration := 5
  visionPolygon? := some [(4, 5), (6, 5)]
  visionPath? := some [PathCmd.closePath]
  visionBbox? := some ⟨0, 0, 1, 1⟩
  layerPoints := []

/-! ## Theorems -/

/-- `recalcVisionBbox` writes only the `_visionBbox` field. -/
theorem recalcVisionBbox_shape (env : Env) (s : SState) :
    ∃ b, recalcVisionBbox env s = { s with visionBbox? := b } := by
  unfold recalcVisionBbox
  split <;> exact ⟨_, rfl⟩

/-- `updateLayerPoints` writes only the layer's snap-point map. -/
theorem updateLayerPoints_shape (env : Env) (s : SState) :
    ∃ lp, updateLayerPoints env s = { s with layerPoints := lp } := by
  unfold updateLayerPoints
  split
  · exact ⟨_, rfl⟩
  · exact ⟨_, rfl⟩

/-- `invalidatePoints` writes only the layer's snap-point map. -/
theorem invalidatePoints_shape (env : Env) (s : SState) :
    ∃ lp, (invalidatePoints env s).1 = { s with layerPoints := lp } := by
  unfold invalidatePoints
  dsimp only
  split
  · exact updateLayerPoints_shape env s
  · exact ⟨s.layerPoints, rfl⟩

/-- Reading `visionPolygon` on a shape with a defined floor runs the
two cache stages. -/
theorem visionPolygon_eq (env : Env) (s : SState) (fid : Nat)
    (hf : s.floorId = some fid) :
    visionPolygon env s = visionPolygonFloor env s fid := by
  unfold visionPolygon
  rw [hf]

/-- The second cache stage returns the `computedVision` flag it was given. -/
theorem pathRefresh_computed (env : Env) (s1 : SState) (va c : Bool) :
    (pathRefresh env s1 va c).computedVision = c := by
  unfold pathRefresh
  split
  · split <;> rfl
  · rfl

/-- A stale (or missing) vision-level cache refreshes: `computeVisibility` is
invoked, its polygon and the observed iteration are stored, the bounding box
is rederived, and no other field moves. -/
theorem visionRefresh_stale (env : Env) (s : SState) (fid : Nat)
    (h : s.visionPolygon? = none ∨ env.visionIter fid ≠ s.visionIteration) :
    ∃ b, visionRefresh env s fid =
      ({ s with visionPolygon? := some (env.computeVis s.center TriTarget.vision fid),
                visionIteration := env.visionIter fid,
                visionBbox? := b }, true) := by
  have hcond : (s.visionPolygon?.isNone || (env.visionIter fid != s.visionIteration)) = true := by
    rcases h with h | h
    · simp [h]
    · simp [bne_iff_ne, h]
  obtain ⟨b, hb⟩ := recalcVisionBbox_shape env
    { s with visionPolygon? := some (env.computeVis s.center TriTarget.vision fid),
             visionIteration := env.visionIter fid }
  refine ⟨b, ?_⟩
  unfold visionRefresh
  rw [hcond]
  simp only [if_true, hb]

/-- A fresh vision-level cache is left alone. -/
theorem visionRefresh_fresh (env : Env) (s : SState) (fid : Nat) (poly : List Point)
    (hp : s.visionPolygon? = some poly) (h1 : env.visionIter fid = s.visionIteration) :
    visionRefresh env s fid = (s, false) := by
  have hcond : (s.visionPolygon?.isNone || (env.visionIter fid != s.visionIteration)) = false := by
    simp [hp, h1]
  unfold visionRefresh
  rw [hcond]
  simp

/-- The path stage on a fresh render cache returns the stored `Path2D`
object and leaves the state untouched. -/
theorem pathRefresh_keep (env : Env) (s1 : SState) (c : Bool) (path : Path2D)
    (hq : s1.visionPath? = some path) (h4 : env.floorStateIteration = s1.floorIteration) :
    pathRefresh env s1 false c = ⟨s1.visionPath?, s1, c, false⟩ := by
  have hcond : (s1.visionPath?.isNone || (env.floorStateIteration != s1.floorIteration)
      || false) = false := by
    simp [hq, h4]
  unfold pathRefresh
  rw [hcond]
  simp

/-- The path stage with a nonempty cached polygon and a stale render cache
rebuilds the path from the cached polygon and stores the floor iteration,
leaving polygon, bounding box and vision iteration untouched. -/
theorem pathRefresh_rebuild (env : Env) (s1 : SState) (va c : Bool)
    (p0 : Point) (rest : List Point)
    (hp : s1.visionPolygon? = some (p0 :: rest))
    (hcond : (s1.visionPath?.isNone || (env.floorStateIteration != s1.floorIteration)
      || va) = true) :
    pathRefresh env s1 va c =
      ⟨some (buildVisionPath env p0 rest),
       { s1 with visionPath? := some (buildVisionPath env p0 rest),
                 floorIteration := env.floorStateIteration }, c, true⟩ := by
  unfold pathRefresh
  rw [hcond, hp]
  simp

/-- A read on a fresh cache takes no branch: it returns the stored render
path unchanged and leaves the whole state untouched. -/
theorem visionPolygonFloor_fresh (env : Env) (s : SState) (fid : Nat)
    (h : cacheFresh env s fid) :
    visionPolygonFloor env s fid = ⟨s.visionPath?, s, false, false⟩ := by
  obtain ⟨h1, ⟨poly, hp⟩, ⟨path, hq⟩, h4⟩ := h
  unfold visionPolygonFloor
  rw [visionRefresh_fresh env s fid poly hp h1]
  have hva : (env.visionIter fid != s.visionIteration) = false := by simp [h1]
  rw [hva]
  exact pathRefresh_keep env s false path hq h4

/-- Postconditions of a successful read (floor defined, every polygon in play
nonempty): the returned path is exactly the one stored in `_visionPath`, the
resulting cache is fresh, and the cached polygon stays nonempty. -/
theorem visionPolygonFloor_post (env : Env) (s : SState) (fid : Nat)
    (hcv : env.computeVis s.center TriTarget.vision fid ≠ [])
    (hpoly : ∀ poly, s.visionPolygon? = some poly → poly ≠ []) :
    (visionPolygonFloor env s fid).path = (visionPolygonFloor env s fid).state.visionPath? ∧
    (visionPolygonFloor env s fid).state.floorId = s.floorId ∧
    cacheFresh env (visionPolygonFloor env s fid).state fid ∧
    (∀ poly, (visionPolygonFloor env s fid).state.visionPolygon? = some poly → poly ≠ []) := by
  unfold visionPolygonFloor
  by_cases hstale : s.visionPolygon? = none ∨ env.visionIter fid ≠ s.visionIteration
  · obtain ⟨c0, crest, hcv2⟩ := List.exists_cons_of_ne_nil hcv
    obtain ⟨b, hb⟩ := visionRefresh_stale env s fid hstale
    rw [hb]
    dsimp only
    have hcvne : ∀ poly, some (env.computeVis s.center TriTarget.vision fid) = some poly →
        poly ≠ [] := by
      intro poly h'
      rw [← Option.some_inj.mp h']
      exact hcv
    by_cases hc2 : ((s.visionPath?).isNone || (env.floorStateIteration != s.floorIteration)
        || (env.visionIter fid != s.visionIteration)) = true
    · rw [pathRefresh_rebuild env _ _ _ c0 crest (by simp [hcv2]) (by exact hc2)]
      exact ⟨rfl, rfl, ⟨rfl, ⟨_, rfl⟩, ⟨_, rfl⟩, rfl⟩, by
        intro poly h'
        exact hcvne poly (by rw [← h', hcv2])⟩
    · have hc2' := Bool.eq_false_iff.mpr hc2
      have h4 : env.floorStateIteration = s.floorIteration := by
        have := (Bool.or_eq_false_iff.mp (Bool.or_eq_false_iff.mp hc2').1).2
        simpa [bne_eq_false_iff_eq] using this
      obtain ⟨path, hq⟩ : ∃ path, s.visionPath? = some path := by
        have := (Bool.or_eq_false_iff.mp (Bool.or_eq_false_iff.mp hc2').1).1
        simpa [Option.isNone_eq_false_iff, Option.isSome_iff_exists] using this
      have hva : (env.visionIter fid != s.visionIteration) = false := by
        have := (Bool.or_eq_false_iff.mp hc2').2
        exact this
      rw [hva]
      rw [pathRefresh_keep env _ true path (by exact hq) (by exact h4)]
      exact ⟨rfl, rfl, ⟨rfl, ⟨_, rfl⟩, ⟨path, by simpa using hq⟩, by simpa using h4⟩,
        by simpa using hcvne⟩
  · push_neg at hstale
    obtain ⟨hns, h1⟩ := hstale
    obtain ⟨poly, hp⟩ := Option.ne_none_iff_exists'.mp hns
    have hpne : poly ≠ [] := hpoly poly hp
    obtain ⟨p0, prest, hpoly2⟩ := List.exists_cons_of_ne_nil hpne
    rw [visionRefresh_fresh env s fid poly hp h1]
    have hva : (env.visionIter fid != s.visionIteration) = false := by simp [h1]
    rw [hva]
    dsimp only
    by_cases hc2 : (s.visionPath?.isNone || (env.floorStateIteration != s.floorIteration)
        || false) = true
    · rw [pathRefresh_rebuild env s false false p0 prest (by rw [hp, hpoly2]) hc2]
      refine ⟨rfl, rfl, ⟨h1, ⟨poly, by simpa using hp⟩, ⟨_, rfl⟩, rfl⟩, ?_⟩
      exact fun poly' h' => hpoly poly' h'
    · have hc2' := Bool.eq_false_iff.mpr hc2
      have h4 : env.floorStateIteration = s.floorIteration := by
        have := (Bool.or_eq_false_iff.mp (Bool.or_eq_false_iff.mp hc2').1).2
        simpa [bne_eq_false_iff_eq] using this
      obtain ⟨path, hq⟩ : ∃ path, s.visionPath? = some path := by
        have := (Bool.or_eq_false_iff.mp (Bool.or_eq_false_iff.mp hc2').1).1
        simpa [Option.isNone_eq_false_iff, Option.isSome_iff_exists] using this
      rw [pathRefresh_keep env s false path hq h4]
      exact ⟨rfl, rfl, ⟨h1, ⟨_, hp⟩, ⟨_, hq⟩, h4⟩, hpoly⟩

/-- The second cache stage never changes the cached polygon, the bounding
box, the vision iteration, the floor id or the centre. -/
theorem pathRefresh_fields (env : Env) (s1 : SState) (va c : Bool) :
    (pathRefresh env s1 va c).state.visionPolygon? = s1.visionPolygon? ∧
    (pathRefresh env s1 va c).state.visionIteration = s1.visionIteration ∧
    (pathRefresh env s1 va c).state.visionBbox? = s1.visionBbox? ∧
    (pathRefresh env s1 va c).state.floorId = s1.floorId := by
  unfold pathRefresh
  split
  · split
    · exact ⟨rfl, rfl, rfl, rfl⟩
    · exact ⟨rfl, rfl, rfl, rfl⟩
  · exact ⟨rfl, rfl, rfl, rfl⟩

/-- A read whose vision-level cache is missing or stale invokes
`computeVisibility`. -/
theorem visionPolygon_stale_computes (env : Env) (s : SState) (fid : Nat)
    (hf : s.floorId = some fid)
    (h : s.visionPolygon? = none ∨ env.visionIter fid ≠ s.visionIteration) :
    (visionPolygon env s).computedVision = true := by
  rw [visionPolygon_eq env s fid hf]
  unfold visionPolygonFloor
  obtain ⟨b, hb⟩ := visionRefresh_stale env s fid h
  rw [hb]
  exact pathRefresh_computed env _ _ _

/-- C2: with the floor defined and both iterations unchanged, a second read
right after a first one takes neither cache branch: it returns the very
`Path2D` object stored by the first read (referential stability) and leaves
the whole state — cached polygon and bounding box included — unchanged. -/
theorem visionPolygon_referential_stability (env : Env) (s : SState) (fid : Nat)
    (hf : s.floorId = some fid)
    (hcv : env.computeVis s.center TriTarget.vision fid ≠ [])
    (hpoly : ∀ poly, s.visionPolygon? = some poly → poly ≠ []) :
    visionPolygon env (visionPolygon env s).state =
      ⟨(visionPolygon env s).path, (visionPolygon env s).state, false, false⟩ := by
  rw [visionPolygon_eq env s fid hf]
  obtain ⟨hpp, hfid, hfresh, _⟩ := visionPolygonFloor_post env s fid hcv hpoly
  rw [visionPolygon_eq env _ fid (by rw [hfid, hf])]
  rw [visionPolygonFloor_fresh env _ fid hfresh]
  rw [hpp]

theorem visionPolygon_referential_stability_witness :
    visionPolygon testEnv (visionPolygon testEnv freshState).state =
      ⟨(visionPolygon testEnv freshState).path,
       (visionPolygon testEnv freshState).state, false, false⟩ :=
  visionPolygon_referential_stability testEnv freshState 0 rfl (by decide)
    (by
      intro poly h
      rw [← Option.some_inj.mp h]
      decide)

/-- C3: a read observing a moved vision iteration invokes `computeVisibility`
with the shape's centre, the Vision target and the shape's floor, stores the
polygon and the observed iteration; a read whose stored iteration matches and
whose polygon is cached does not invoke `computeVisibility`. -/
theorem visionPolygon_cache_coherence (env : Env) (s : SState) (fid : Nat)
    (hf : s.floorId = some fid) :
    (env.visionIter fid ≠ s.visionIteration →
      (visionPolygon env s).computedVision = true ∧
      (visionPolygon env s).state.visionPolygon? =
        some (env.computeVis s.center TriTarget.vision fid) ∧
      (visionPolygon env s).state.visionIteration = env.visionIter fid) ∧
    (env.visionIter fid = s.visionIteration →
      ∀ poly, s.visionPolygon? = some poly →
        (visionPolygon env s).computedVision = false) := by
  rw [visionPolygon_eq env s fid hf]
  constructor
  · intro hne
    unfold visionPolygonFloor
    obtain ⟨b, hb⟩ := visionRefresh_stale env s fid (Or.inr hne)
    rw [hb]
    refine ⟨pathRefresh_computed env _ _ _, ?_, ?_⟩
    · rw [(pathRefresh_fields env _ _ _).1]
    · rw [(pathRefresh_fields env _ _ _).2.1]
  · intro heq poly hp
    unfold visionPolygonFloor
    rw [visionRefresh_fresh env s fid poly hp heq]
    exact pathRefresh_computed env _ _ _

theorem visionPolygon_cache_coherence_witness :
    (visionPolygon testEnv { freshState with visionIteration := 3 }).computedVision = true ∧
    (visionPolygon testEnv { freshState with visionIteration := 3 }).state.visionPolygon? =
      some (testEnv.computeVis { freshState with visionIteration := 3 }.center
        TriTarget.vision 0) ∧
    (visionPolygon testEnv { freshState with visionIteration := 3 }).state.visionIteration =
      testEnv.visionIter 0 :=
  (visionPolygon_cache_coherence testEnv { freshState with visionIteration := 3 } 0 rfl).1
    (by decide)

/-- C4: a shape without a floor reads an empty `Path2D`: no
`computeVisibility` call, no field mutated, no exception. -/
theorem visionPolygon_undefined_floor (env : Env) (s : SState) (hf : s.floorId = none) :
    visionPolygon env s = ⟨some [], s, false, false⟩ := by
  unfold visionPolygon
  rw [hf]

theorem visionPolygon_undefined_floor_witness :
    visionPolygon testEnv { freshState with floorId := none } =
      ⟨some [], { freshState with floorId := none }, false, false⟩ :=
  visionPolygon_undefined_floor testEnv { freshState with floorId := none } rfl

/-- C5: after `resetVisionIteration`, the stored iteration is the sentinel
`-1`; as long as the floor's counter is non-negative the next read invokes
`computeVisibility`, bumped counter or not. -/
theorem resetVisionIteration_forces_recompute (env : Env) (s : SState) (fid : Nat)
    (hf : s.floorId = some fid) (hiter : 0 ≤ env.visionIter fid) :
    (visionPolygon env (resetVisionIteration s)).computedVision = true := by
  refine visionPolygon_stale_computes env _ fid hf (Or.inr ?_)
  show env.visionIter fid ≠ -1
  omega

theorem resetVisionIteration_forces_recompute_witness :
    (visionPolygon testEnv (resetVisionIteration freshState)).computedVision = true :=
  resetVisionIteration_forces_recompute testEnv freshState 0 rfl (by decide)

/-- C8: with the vision iteration unchanged but the floor redraw iteration
moved, the read rebuilds the render path from the cached polygon and stores
the redraw iteration; the polygon and bounding box stay untouched and
`computeVisibility` is not invoked. -/
theorem visionPolygon_redraw_only (env : Env) (s : SState) (fid : Nat)
    (p0 : Point) (rest : List Point)
    (hf : s.floorId = some fid)
    (hp : s.visionPolygon? = some (p0 :: rest))
    (hvis : env.visionIter fid = s.visionIteration)
    (hfloor : env.floorStateIteration ≠ s.floorIteration) :
    visionPolygon env s =
      ⟨some (buildVisionPath env p0 rest),
       { s with visionPath? := some (buildVisionPath env p0 rest),
                floorIteration := env.floorStateIteration },
       false, true⟩ := by
  rw [visionPolygon_eq env s fid hf]
  unfold visionPolygonFloor
  rw [visionRefresh_fresh env s fid _ hp hvis]
  have hva : (env.visionIter fid != s.visionIteration) = false := by simp [hvis]
  rw [hva]
  exact pathRefresh_rebuild env s false false p0 rest hp (by simp [bne_iff_ne, hfloor])

theorem visionPolygon_redraw_only_witness :
    visionPolygon testEnv { freshState with floorIteration := 4 } =
      ⟨some (buildVisionPath testEnv (4, 5) [(6, 5)]),
       { { freshState with floorIteration := 4 } with
          visionPath? := some (buildVisionPath testEnv (4, 5) [(6, 5)]),
          floorIteration := testEnv.floorStateIteration },
       false, true⟩ :=
  visionPolygon_redraw_only testEnv { freshState with floorIteration := 4 } 0
    (4, 5) [(6, 5)] rfl rfl rfl (by decide)

/-- C9: `setPositionRepresentation` with an empty point list is a complete
no-op: the state is returned unchanged and no external call is made. -/
theorem setPositionRepresentation_empty_noop (env : Env) (s : SState)
    (position : PositionRep) (h : position.points = []) :
    setPositionRepresentation env s position = (s, []) := by
  unfold setPositionRepresentation
  rw [h]

theorem setPositionRepresentation_empty_noop_witness :
    setPositionRepresentation testEnv freshState ⟨9, []⟩ = (freshState, []) :=
  setPositionRepresentation_empty_noop testEnv freshState ⟨9, []⟩ rfl

/-- The state after `set refPoint`: new reference point, recomputed centre,
vision iteration reset to the `-1` sentinel; only the layer snap-point map
may move besides. -/
theorem setRefPoint_state (env : Env) (s : SState) (point : Point) :
    ∃ lp, (setRefPoint env s point).1 =
      { s with refPoint := point,
               center := env.centerOf { s with refPoint := point },
               visionIteration := -1,
               layerPoints := lp } := by
  obtain ⟨lp, hlp⟩ := invalidatePoints_shape env (resetVisionIteration
    { s with refPoint := point, center := env.centerOf { s with refPoint := point } })
  exact ⟨lp, hlp⟩

/-- The state after `set angle`: only the angle (and possibly the layer
snap-point map) moves; the vision cache fields are untouched. -/
theorem setAngle_state (env : Env) (s : SState) (a : Int) :
    ∃ lp, (setAngle env s a).1 = { s with angle := a, layerPoints := lp } :=
  invalidatePoints_shape env { s with angle := a }

/-- C1 counterexample: on a fresh cache, `set angle` leaves the vision cache
untouched, and the next `visionPolygon` read does not call
`computeVisibility` — the claim fails for the angle setter. -/
theorem setAngle_no_invalidate_cex :
    (visionPolygon testEnv (setAngle testEnv freshState 7).1).computedVision = false ∧
    (setAngle testEnv freshState 7).1.visionIteration = freshState.visionIteration ∧
    (setAngle testEnv freshState 7).1.visionPolygon? = freshState.visionPolygon? ∧
    (setAngle testEnv freshState 7).1.visionPath? = freshState.visionPath? := by
  decide

/-- C1 amended: the `refPoint` setter (via the `-1` sentinel, given a
non-negative floor counter) and the `center` setter (via clearing the cached
polygon) leave the cache so that the next read calls `computeVisibility`;
the `angle` setter does not touch the vision cache at all. -/
theorem invalidate_on_write_amended (env : Env) (s : SState) (fid : Nat)
    (point c : Point) (a : Int)
    (hf : s.floorId = some fid) (hiter : 0 ≤ env.visionIter fid) :
    (visionPolygon env (setRefPoint env s point).1).computedVision = true ∧
    (visionPolygon env (setCenter s c)).computedVision = true ∧
    (setAngle env s a).1.visionIteration = s.visionIteration ∧
    (setAngle env s a).1.visionPolygon? = s.visionPolygon? ∧
    (setAngle env s a).1.visionPath? = s.visionPath? := by
  obtain ⟨lp1, h1⟩ := setRefPoint_state env s point
  obtain ⟨lp2, h2⟩ := setAngle_state env s a
  refine ⟨?_, ?_, ?_, ?_, ?_⟩
  · refine visionPolygon_stale_computes env _ fid (by rw [h1]; exact hf) (Or.inr ?_)
    rw [h1]
    show env.visionIter fid ≠ -1
    omega
  · exact visionPolygon_stale_computes env _ fid hf (Or.inl rfl)
  · rw [h2]
  · rw [h2]
  · rw [h2]

theorem invalidate_on_write_amended_witness :
    (visionPolygon testEnv (setRefPoint testEnv freshState (9, 9)).1).computedVision = true ∧
    (visionPolygon testEnv (setCenter freshState (8, 8))).computedVision = true ∧
    (setAngle testEnv freshState 7).1.visionIteration = freshState.visionIteration ∧
    (setAngle testEnv freshState 7).1.visionPolygon? = freshState.visionPolygon? ∧
    (setAngle testEnv freshState 7).1.visionPath? = freshState.visionPath? :=
  invalidate_on_write_amended testEnv freshState 0 (9, 9) (8, 8) 7 rfl (by decide)

/-- C6: for each target kind whose blocker flag is set and whose altered flag
is false, the trace contains a `deleteFromTriangulation` immediately followed
by an `addToTriangulation` for this shape, and — when the shape has a floor —
immediately followed by the matching iteration-counter recalculation; when the
blocker flag is false, no triangulation call and no counter bump for that
target occurs. -/
theorem updateShapeVision_spec (env : Env) (s : SState) (am av : Bool) :
    (env.props.blocksVision = true → av = false →
      (∃ pre suf, updateShapeVision env s am av =
        pre ++ GameEvent.deleteFromTriangulation TriTarget.vision s.id ::
          GameEvent.addToTriangulation TriTarget.vision s.id :: suf) ∧
      (∀ fid, s.floorId = some fid →
        ∃ pre suf, updateShapeVision env s am av =
          pre ++ GameEvent.deleteFromTriangulation TriTarget.vision s.id ::
            GameEvent.addToTriangulation TriTarget.vision s.id ::
            GameEvent.recalculateVision fid :: suf)) ∧
    (env.props.blocksVision = false →
      (∀ sh, GameEvent.deleteFromTriangulation TriTarget.vision sh ∉
          updateShapeVision env s am av ∧
        GameEvent.addToTriangulation TriTarget.vision sh ∉ updateShapeVision env s am av) ∧
      (∀ fid, GameEvent.recalculateVision fid ∉ updateShapeVision env s am av)) ∧
    (env.props.blocksMovement = true → am = false →
      (∃ pre suf, updateShapeVision env s am av =
        pre ++ GameEvent.deleteFromTriangulation TriTarget.movement s.id ::
          GameEvent.addToTriangulation TriTarget.movement s.id :: suf) ∧
      (∀ fid, s.floorId = some fid →
        ∃ pre suf, updateShapeVision env s am av =
          pre ++ GameEvent.deleteFromTriangulation TriTarget.movement s.id ::
            GameEvent.addToTriangulation TriTarget.movement s.id ::
            GameEvent.recalculateMovement fid :: suf)) ∧
    (env.props.blocksMovement = false →
      (∀ sh, GameEvent.deleteFromTriangulation TriTarget.movement sh ∉
          updateShapeVision env s am av ∧
        GameEvent.addToTriangulation TriTarget.movement sh ∉ updateShapeVision env s am av) ∧
      (∀ fid, GameEvent.recalculateMovement fid ∉ updateShapeVision env s am av)) := by
  refine ⟨?_, ?_, ?_, ?_⟩
  · intro hbv hav
    have hc : (env.props.blocksVision && !av) = true := by simp [hbv, hav]
    constructor
    · refine ⟨[], (match s.floorId with
        | some fid => [GameEvent.recalculateVision fid]
        | none => []) ++ invalidate s true ++ GameEvent.invalidateLightAllFloors ::
        (if env.props.blocksMovement && !am then
          GameEvent.deleteFromTriangulation TriTarget.movement s.id ::
          GameEvent.addToTriangulation TriTarget.movement s.id ::
          (match s.floorId with
           | some fid => [GameEvent.recalculateMovement fid]
           | none => [])
        else []), ?_⟩
      simp [updateShapeVision, hc]
    · intro fid hfid
      refine ⟨[], invalidate s true ++ GameEvent.invalidateLightAllFloors ::
        (if env.props.blocksMovement && !am then
          GameEvent.deleteFromTriangulation TriTarget.movement s.id ::
          GameEvent.addToTriangulation TriTarget.movement s.id ::
          [GameEvent.recalculateMovement fid]
        else []), ?_⟩
      simp [updateShapeVision, hc, hfid]
  · intro hbv
    have hc : (env.props.blocksVision && !av) = false := by simp [hbv]
    constructor
    · intro sh
      cases hbm : env.props.blocksMovement <;> cases ham : am <;>
        cases hl : s.layerName <;> cases hfl : s.floorId <;>
          simp [updateShapeVision, invalidate, hc, hbm, ham, hl, hfl]
    · intro fid
      cases hbm : env.props.blocksMovement <;> cases ham : am <;>
        cases hl : s.layerName <;> cases hfl : s.floorId <;>
          simp [updateShapeVision, invalidate, hc, hbm, ham, hl, hfl]
  · intro hbm ham
    have hc : (env.props.blocksMovement && !am) = true := by simp [hbm, ham]
    constructor
    · refine ⟨(if env.props.blocksVision && !av then
          GameEvent.deleteFromTriangulation TriTarget.vision s.id ::
          GameEvent.addToTriangulation TriTarget.vision s.id ::
          (match s.floorId with
           | some fid => [GameEvent.recalculateVision fid]
           | none => [])
        else []) ++ invalidate s true ++ [GameEvent.invalidateLightAllFloors],
        (match s.floorId with
         | some fid => [GameEvent.recalculateMovement fid]
         | none => []), ?_⟩
      simp [updateShapeVision, hc]
    · intro fid hfid
      refine ⟨(if env.props.blocksVision && !av then
          GameEvent.deleteFromTriangulation TriTarget.vision s.id ::
          GameEvent.addToTriangulation TriTarget.vision s.id ::
          [GameEvent.recalculateVision fid]
        else []) ++ invalidate s true ++ [GameEvent.invalidateLightAllFloors], [], ?_⟩
      simp [updateShapeVision, hc, hfid]
  · intro hbm
    have hc : (env.props.blocksMovement && !am) = false := by simp [hbm]
    constructor
    · intro sh
      cases hbv : env.props.blocksVision <;> cases hav : av <;>
        cases hl : s.layerName <;> cases hfl : s.floorId <;>
          simp [updateShapeVision, invalidate, hc, hbv, hav, hl, hfl]
    · intro fid
      cases hbv : env.props.blocksVision <;> cases hav : av <;>
        cases hl : s.layerName <;> cases hfl : s.floorId <;>
          simp [updateShapeVision, invalidate, hc, hbv, hav, hl, hfl]

theorem updateShapeVision_spec_witness :
    ∃ pre suf, updateShapeVision testEnv freshState false false =
      pre ++ GameEvent.deleteFromTriangulation TriTarget.vision freshState.id ::
        GameEvent.addToTriangulation TriTarget.vision freshState.id ::
        GameEvent.recalculateVision 0 :: suf :=
  ((updateShapeVision_spec testEnv freshState false false).1 rfl rfl).2 0 rfl

/-- One step of the scan keeps the left/top bound at or below and the
right/bottom bound at or above the processed point and the previous bounds,
moving each bound only onto the point's coordinate. -/
theorem bboxStep_spec (l r t b : Int) (p : Point) (hlr : l ≤ r) (htb : t ≤ b) :
    (bboxStep (l, r, t, b) p).1 ≤ p.1 ∧ p.1 ≤ (bboxStep (l, r, t, b) p).2.1 ∧
    (bboxStep (l, r, t, b) p).2.2.1 ≤ p.2 ∧ p.2 ≤ (bboxStep (l, r, t, b) p).2.2.2 ∧
    (bboxStep (l, r, t, b) p).1 ≤ l ∧ r ≤ (bboxStep (l, r, t, b) p).2.1 ∧
    (bboxStep (l, r, t, b) p).2.2.1 ≤ t ∧ b ≤ (bboxStep (l, r, t, b) p).2.2.2 ∧
    ((bboxStep (l, r, t, b) p).1 = l ∨ (bboxStep (l, r, t, b) p).1 = p.1) ∧
    ((bboxStep (l, r, t, b) p).2.1 = r ∨ (bboxStep (l, r, t, b) p).2.1 = p.1) ∧
    ((bboxStep (l, r, t, b) p).2.2.1 = t ∨ (bboxStep (l, r, t, b) p).2.2.1 = p.2) ∧
    ((bboxStep (l, r, t, b) p).2.2.2 = b ∨ (bboxStep (l, r, t, b) p).2.2.2 = p.2) := by
  obtain ⟨x, y⟩ := p
  simp only [bboxStep]
  split_ifs <;> simp_all <;> omega

/-- The full min/max scan: the final bounds enclose the start bounds and
every scanned point, and each bound is either the start bound or attained at
a scanned point. -/
theorem bboxLoop_spec (ps : List Point) : ∀ l r t b : Int, l ≤ r → t ≤ b →
    (ps.foldl bboxStep (l, r, t, b)).1 ≤ l ∧ r ≤ (ps.foldl bboxStep (l, r, t, b)).2.1 ∧
    (ps.foldl bboxStep (l, r, t, b)).2.2.1 ≤ t ∧ b ≤ (ps.foldl bboxStep (l, r, t, b)).2.2.2 ∧
    (∀ p ∈ ps, (ps.foldl bboxStep (l, r, t, b)).1 ≤ p.1 ∧
      p.1 ≤ (ps.foldl bboxStep (l, r, t, b)).2.1 ∧
      (ps.foldl bboxStep (l, r, t, b)).2.2.1 ≤ p.2 ∧
      p.2 ≤ (ps.foldl bboxStep (l, r, t, b)).2.2.2) ∧
    ((ps.foldl bboxStep (l, r, t, b)).1 = l ∨ ∃ p ∈ ps, p.1 = (ps.foldl bboxStep (l, r, t, b)).1) ∧
    ((ps.foldl bboxStep (l, r, t, b)).2.1 = r ∨
      ∃ p ∈ ps, p.1 = (ps.foldl bboxStep (l, r, t, b)).2.1) ∧
    ((ps.foldl bboxStep (l, r, t, b)).2.2.1 = t ∨
      ∃ p ∈ ps, p.2 = (ps.foldl bboxStep (l, r, t, b)).2.2.1) ∧
    ((ps.foldl bboxStep (l, r, t, b)).2.2.2 = b ∨
      ∃ p ∈ ps, p.2 = (ps.foldl bboxStep (l, r, t, b)).2.2.2) := by
  induction ps with
  | nil => intro l r t b hlr htb; simp [hlr, htb]
  | cons p ps ih =>
    intro l r t b hlr htb
    obtain ⟨h1, h2, h3, h4, h5, h6, h7, h8, h9, h10, h11, h12⟩ := bboxStep_spec l r t b p hlr htb
    simp only [List.foldl_cons]
    obtain ⟨g1, g2, g3, g4, g5, g6, g7, g8, g9⟩ :=
      ih (bboxStep (l, r, t, b) p).1 (bboxStep (l, r, t, b) p).2.1
        (bboxStep (l, r, t, b) p).2.2.1 (bboxStep (l, r, t, b) p).2.2.2
        (le_trans h1 h2) (le_trans h3 h4)
    have hfold : ps.foldl bboxStep ((bboxStep (l, r, t, b) p).1, (bboxStep (l, r, t, b) p).2.1,
        (bboxStep (l, r, t, b) p).2.2.1, (bboxStep (l, r, t, b) p).2.2.2) =
        ps.foldl bboxStep (bboxStep (l, r, t, b) p) := rfl
    rw [hfold] at g1 g2 g3 g4 g5 g6 g7 g8 g9
    refine ⟨by omega, by omega, by omega, by omega, ?_, ?_, ?_, ?_, ?_⟩
    · intro q hq
      rcases List.mem_cons.mp hq with hq | hq
      · subst hq
        exact ⟨by omega, by omega, by omega, by omega⟩
      · exact g5 q hq
    · rcases g6 with g | g
      · rcases h9 with h | h
        · exact Or.inl (by omega)
        · exact Or.inr ⟨p, List.mem_cons_self _ _, by omega⟩
      · obtain ⟨q, hq, hqe⟩ := g
        exact Or.inr ⟨q, List.mem_cons_of_mem _ hq, hqe⟩
    · rcases g7 with g | g
      · rcases h10 with h | h
        · exact Or.inl (by omega)
        · exact Or.inr ⟨p, List.mem_cons_self _ _, by omega⟩
      · obtain ⟨q, hq, hqe⟩ := g
        exact Or.inr ⟨q, List.mem_cons_of_mem _ hq, hqe⟩
    · rcases g8 with g | g
      · rcases h11 with h | h
        · exact Or.inl (by omega)
        · exact Or.inr ⟨p, List.mem_cons_self _ _, by omega⟩
      · obtain ⟨q, hq, hqe⟩ := g
        exact Or.inr ⟨q, List.mem_cons_of_mem _ hq, hqe⟩
    · rcases g9 with g | g
      · rcases h12 with h | h
        · exact Or.inl (by omega)
        · exact Or.inr ⟨p, List.mem_cons_self _ _, by omega⟩
      · obtain ⟨q, hq, hqe⟩ := g
        exact Or.inr ⟨q, List.mem_cons_of_mem _ hq, hqe⟩

/-- C7: rederiving the vision bounding box from a nonempty cached polygon
stores the minimal axis-aligned box of the polygon's vertices (bounds enclose
every vertex and each bound is attained) intersected with the aura-extended
bounding box restricted to vision-source auras; an absent or empty polygon
clears the stored box. -/
theorem recalcVisionBbox_spec (env : Env) (s : SState) :
    (∀ p0 rest, s.visionPolygon? = some (p0 :: rest) →
      ∃ leftX rightX topY botY,
        (∀ p ∈ p0 :: rest, leftX ≤ p.1 ∧ p.1 ≤ rightX ∧ topY ≤ p.2 ∧ p.2 ≤ botY) ∧
        (∃ p ∈ p0 :: rest, p.1 = leftX) ∧ (∃ p ∈ p0 :: rest, p.1 = rightX) ∧
        (∃ p ∈ p0 :: rest, p.2 = topY) ∧ (∃ p ∈ p0 :: rest, p.2 = botY) ∧
        recalcVisionBbox env s = { s with visionBbox? := some (env.rectIntersect
          ⟨leftX, topY, rightX - leftX, botY - topY⟩ (getAuraAABB env s true)) }) ∧
    ((s.visionPolygon? = none ∨ s.visionPolygon? = some []) →
      recalcVisionBbox env s = { s with visionBbox? := none }) := by
  constructor
  · intro p0 rest hp
    obtain ⟨g1, g2, g3, g4, g5, g6, g7, g8, g9⟩ :=
      bboxLoop_spec (p0 :: rest) p0.1 p0.1 p0.2 p0.2 le_rfl le_rfl
    refine ⟨((p0 :: rest).foldl bboxStep (p0.1, p0.1, p0.2, p0.2)).1,
            ((p0 :: rest).foldl bboxStep (p0.1, p0.1, p0.2, p0.2)).2.1,
            ((p0 :: rest).foldl bboxStep (p0.1, p0.1, p0.2, p0.2)).2.2.1,
            ((p0 :: rest).foldl bboxStep (p0.1, p0.1, p0.2, p0.2)).2.2.2,
            g5, ?_, ?_, ?_, ?_, ?_⟩
    · rcases g6 with g | g
      · exact ⟨p0, List.mem_cons_self _ _, g.symm⟩
      · exact g
    · rcases g7 with g | g
      · exact ⟨p0, List.mem_cons_self _ _, g.symm⟩
      · exact g
    · rcases g8 with g | g
      · exact ⟨p0, List.mem_cons_self _ _, g.symm⟩
      · exact g
    · rcases g9 with g | g
      · exact ⟨p0, List.mem_cons_self _ _, g.symm⟩
      · exact g
    · unfold recalcVisionBbox
      rw [hp]
  · intro h
    rcases h with h | h <;>
      · unfold recalcVisionBbox
        rw [h]

theorem recalcVisionBbox_spec_witness :
    ∃ leftX rightX topY botY,
      (∀ p ∈ (4, 5) :: [((6 : Int), (5 : Int))],
        leftX ≤ p.1 ∧ p.1 ≤ rightX ∧ topY ≤ p.2 ∧ p.2 ≤ botY) ∧
      (∃ p ∈ (4, 5) :: [((6 : Int), (5 : Int))], p.1 = leftX) ∧
      (∃ p ∈ (4, 5) :: [((6 : Int), (5 : Int))], p.1 = rightX) ∧
      (∃ p ∈ (4, 5) :: [((6 : Int), (5 : Int))], p.2 = topY) ∧
      (∃ p ∈ (4, 5) :: [((6 : Int), (5 : Int))], p.2 = botY) ∧
      recalcVisionBbox testEnv freshState = { freshState with
        visionBbox? := some (testEnv.rectIntersect
          ⟨leftX, topY, rightX - leftX, botY - topY⟩
          (getAuraAABB testEnv freshState true)) } :=
  (recalcVisionBbox_spec testEnv freshState).1 (4, 5) [(6, 5)] rfl

/-- After the removal pass, no surviving entry contains the removed id. -/
theorem layerPointsRemove_not_mem (id : Nat) (m : List (String × Finset Nat)) :
    ∀ e ∈ layerPointsRemove id m, id ∉ e.2 := by
  intro e he
  obtain ⟨e0, he0, hfe⟩ := List.mem_filterMap.mp he
  by_cases hid : id ∈ e0.2
  · rw [if_pos hid] at hfe
    by_cases hcard : e0.2.card = 1
    · rw [if_pos hcard] at hfe
      cases hfe
    · rw [if_neg hcard] at hfe
      rw [← Option.some_inj.mp hfe]
      exact Finset.not_mem_erase id e0.2
  · rw [if_neg hid] at hfe
    rw [← Option.some_inj.mp hfe]
    exact hid

/-- The removal pass keeps every surviving set nonempty (an entry whose set
would become empty is deleted wholesale). -/
theorem layerPointsRemove_nonempty (id : Nat) (m : List (String × Finset Nat))
    (hne : ∀ e ∈ m, e.2 ≠ ∅) :
    ∀ e ∈ layerPointsRemove id m, e.2 ≠ ∅ := by
  intro e he
  obtain ⟨e0, he0, hfe⟩ := List.mem_filterMap.mp he
  by_cases hid : id ∈ e0.2
  · rw [if_pos hid] at hfe
    by_cases hcard : e0.2.card = 1
    · rw [if_pos hcard] at hfe
      cases hfe
    · rw [if_neg hcard] at hfe
      rw [← Option.some_inj.mp hfe]
      have h2 : 2 ≤ e0.2.card := by
        have := Finset.card_pos.mpr ⟨id, hid⟩
        omega
      have : 0 < (e0.2.erase id).card := by
        rw [Finset.card_erase_of_mem hid]
        omega
      exact Finset.card_pos.mp this |>.ne_empty
  · rw [if_neg hid] at hfe
    rw [← Option.some_inj.mp hfe]
    exact hne e0 he0

/-- Where an entry of the map can come from after one insertion step:
unchanged with a different key, updated in place under the inserted key, or
freshly appended as a singleton. -/
theorem layerPointsAdd_cases (id : Nat) (strp : String) (m : List (String × Finset Nat))
    (e : String × Finset Nat) (he : e ∈ layerPointsAdd id strp m) :
    (∃ e0 ∈ m, e0.1 ≠ strp ∧ e = e0) ∨
    (∃ e0 ∈ m, e0.1 = strp ∧ e = (e0.1, insert id e0.2)) ∨
    e = (strp, {id}) := by
  unfold layerPointsAdd at he
  by_cases hany : (m.any fun e => e.1 = strp) = true
  · rw [if_pos hany] at he
    obtain ⟨e0, he0, hfe⟩ := List.mem_map.mp he
    by_cases hk : e0.1 = strp
    · right; left
      exact ⟨e0, he0, hk, by rw [← hfe]; simp [hk]⟩
    · left
      exact ⟨e0, he0, hk, by rw [← hfe]; simp [hk]⟩
  · rw [if_neg hany] at he
    rcases List.mem_append.mp he with h | h
    · left
      refine ⟨e, h, ?_, rfl⟩
      intro hk
      exact hany (List.any_eq_true.mpr ⟨e, h, by simp [hk]⟩)
    · right; right
      simpa using h

/-- One insertion step preserves "this key holds the id". -/
theorem layerPointsAdd_preserve (id : Nat) (strp k : String)
    (m : List (String × Finset Nat)) (h : ∃ e ∈ m, e.1 = k ∧ id ∈ e.2) :
    ∃ e ∈ layerPointsAdd id strp m, e.1 = k ∧ id ∈ e.2 := by
  obtain ⟨e, he, hk, hid⟩ := h
  unfold layerPointsAdd
  by_cases hany : (m.any fun e => e.1 = strp) = true
  · rw [if_pos hany]
    refine ⟨if e.1 = strp then (e.1, insert id e.2) else e, List.mem_map_of_mem _ he, ?_⟩
    by_cases hs : e.1 = strp
    · rw [if_pos hs]
      exact ⟨hk, Finset.mem_insert_of_mem hid⟩
    · rw [if_neg hs]
      exact ⟨hk, hid⟩
  · rw [if_neg hany]
    exact ⟨e, List.mem_append_left _ he, hk, hid⟩

/-- After one insertion step the inserted key holds the id. -/
theorem layerPointsAdd_mem (id : Nat) (strp : String) (m : List (String × Finset Nat)) :
    ∃ e ∈ layerPointsAdd id strp m, e.1 = strp ∧ id ∈ e.2 := by
  unfold layerPointsAdd
  by_cases hany : (m.any fun e => e.1 = strp) = true
  · rw [if_pos hany]
    obtain ⟨e0, he0, hk⟩ := List.any_eq_true.mp hany
    have hk' : e0.1 = strp := by simpa using hk
    refine ⟨(e0.1, insert id e0.2), ?_, hk', Finset.mem_insert_self id e0.2⟩
    have : (fun e => if e.1 = strp then (e.1, insert id e.2) else e) e0 = (e0.1, insert id e0.2) := by
      simp [hk']
    rw [← this]
    exact List.mem_map_of_mem _ he0
  · rw [if_neg hany]
    exact ⟨(strp, {id}), List.mem_append_right _ (by simp), rfl, Finset.mem_insert_self id ∅⟩

/-- If an entry holds the id after one insertion step, either it sits under
the inserted key or it already held the id under the same key. -/
theorem layerPointsAdd_mem_id (id : Nat) (strp : String) (m : List (String × Finset Nat))
    (e : String × Finset Nat) (he : e ∈ layerPointsAdd id strp m) (hid : id ∈ e.2) :
    e.1 = strp ∨ ∃ e0 ∈ m, e0.1 = e.1 ∧ id ∈ e0.2 := by
  rcases layerPointsAdd_cases id strp m e he with ⟨e0, he0, _, heq⟩ | ⟨e0, he0, hk, heq⟩ | heq
  · exact Or.inr ⟨e0, he0, by rw [heq], by rw [← heq]; exact hid⟩
  · rw [heq]
    exact Or.inl hk
  · rw [heq]
    exact Or.inl rfl

/-- One insertion step keeps all sets nonempty. -/
theorem layerPointsAdd_nonempty (id : Nat) (strp : String) (m : List (String × Finset Nat))
    (h : ∀ e ∈ m, e.2 ≠ ∅) : ∀ e ∈ layerPointsAdd id strp m, e.2 ≠ ∅ := by
  intro e he
  rcases layerPointsAdd_cases id strp m e he with ⟨e0, he0, _, heq⟩ | ⟨e0, he0, hk, heq⟩ | heq
  · rw [heq]
    exact h e0 he0
  · rw [heq]
    exact Finset.insert_ne_empty id e0.2
  · rw [heq]
    exact Finset.insert_ne_empty id ∅

/-- Over the whole insertion loop: an entry holding the id either sits under
the stringified key of one of the inserted points, or already held the id
under the same key before the loop. -/
theorem layerPointsAddAll_mem_id (id : Nat) (pts : List Point) :
    ∀ (m0 : List (String × Finset Nat)) (e : String × Finset Nat),
      e ∈ pts.foldl (fun m p => layerPointsAdd id (stringifyPoint p) m) m0 → id ∈ e.2 →
      (∃ p ∈ pts, e.1 = stringifyPoint p) ∨ ∃ e0 ∈ m0, e0.1 = e.1 ∧ id ∈ e0.2 := by
  induction pts with
  | nil =>
    intro m0 e he hid
    exact Or.inr ⟨e, he, rfl, hid⟩
  | cons p pts ih =>
    intro m0 e he hid
    rw [List.foldl_cons] at he
    rcases ih (layerPointsAdd id (stringifyPoint p) m0) e he hid with h | ⟨e1, he1, hk1, hid1⟩
    · obtain ⟨q, hq, hkey⟩ := h
      exact Or.inl ⟨q, List.mem_cons_of_mem _ hq, hkey⟩
    · rcases layerPointsAdd_mem_id id (stringifyPoint p) m0 e1 he1 hid1 with h | ⟨e0, he0, hk0, hid0⟩
      · exact Or.inl ⟨p, List.mem_cons_self _ _, by rw [← hk1, h]⟩
      · exact Or.inr ⟨e0, he0, by rw [hk0, hk1], hid0⟩

/-- Over the whole insertion loop: every entry whose key is marked — either
by the invariant predicate or as the stringified key of an inserted point —
holds the id afterwards. -/
theorem layerPointsAddAll_covers (id : Nat) (pts : List Point) :
    ∀ (m0 : List (String × Finset Nat)) (K : String → Prop),
      (∀ e ∈ m0, K e.1 → id ∈ e.2) →
      ∀ e ∈ pts.foldl (fun m p => layerPointsAdd id (stringifyPoint p) m) m0,
        (K e.1 ∨ ∃ p ∈ pts, e.1 = stringifyPoint p) → id ∈ e.2 := by
  induction pts with
  | nil =>
    intro m0 K hK e he hcase
    rcases hcase with h | ⟨p, hp, _⟩
    · exact hK e he h
    · cases hp
  | cons p pts ih =>
    intro m0 K hK e he hcase
    rw [List.foldl_cons] at he
    have hstep : ∀ e1 ∈ layerPointsAdd id (stringifyPoint p) m0,
        (K e1.1 ∨ e1.1 = stringifyPoint p) → id ∈ e1.2 := by
      intro e1 he1 hc1
      rcases layerPointsAdd_cases id (stringifyPoint p) m0 e1 he1 with
        ⟨e0, he0, hne, heq⟩ | ⟨e0, he0, hk, heq⟩ | heq
      · rcases hc1 with h | h
        · rw [heq]
          exact hK e0 he0 (by rw [← heq]; exact h)
        · rw [heq] at h
          exact absurd h hne
      · rw [heq]
        exact Finset.mem_insert_self id e0.2
      · rw [heq]
        exact Finset.mem_insert_self id ∅
    refine ih (layerPointsAdd id (stringifyPoint p) m0)
      (fun k => K k ∨ k = stringifyPoint p) hstep e he ?_
    rcases hcase with h | ⟨q, hq, hkey⟩
    · exact Or.inl (Or.inl h)
    · rcases List.mem_cons.mp hq with hq | hq
      · exact Or.inl (Or.inr (by rw [hkey, hq]))
      · exact Or.inr ⟨q, hq, hkey⟩

/-- The insertion loop preserves "this key holds the id". -/
theorem layerPointsAddAll_preserve (id : Nat) (pts : List Point) :
    ∀ (m0 : List (String × Finset Nat)) (k : String),
      (∃ e ∈ m0, e.1 = k ∧ id ∈ e.2) →
      ∃ e ∈ pts.foldl (fun m p => layerPointsAdd id (stringifyPoint p) m) m0,
        e.1 = k ∧ id ∈ e.2 := by
  induction pts with
  | nil => intro m0 k h; exact h
  | cons p pts ih =>
    intro m0 k h
    rw [List.foldl_cons]
    exact ih _ k (layerPointsAdd_preserve id (stringifyPoint p) k m0 h)

/-- After the insertion loop, every inserted point's key holds the id. -/
theorem layerPointsAddAll_mem (id : Nat) (pts : List Point) :
    ∀ (m0 : List (String × Finset Nat)), ∀ p ∈ pts,
      ∃ e ∈ pts.foldl (fun m p => layerPointsAdd id (stringifyPoint p) m) m0,
        e.1 = stringifyPoint p ∧ id ∈ e.2 := by
  induction pts with
  | nil => intro m0 p hp; cases hp
  | cons q pts ih =>
    intro m0 p hp
    rw [List.foldl_cons]
    rcases List.mem_cons.mp hp with hp | hp
    · rw [hp]
      exact layerPointsAddAll_preserve id pts _ _
        (layerPointsAdd_mem id (stringifyPoint q) m0)
    · exact ih _ p hp

/-- The insertion loop keeps all sets nonempty. -/
theorem layerPointsAddAll_nonempty (id : Nat) (pts : List Point) :
    ∀ (m0 : List (String × Finset Nat)), (∀ e ∈ m0, e.2 ≠ ∅) →
      ∀ e ∈ pts.foldl (fun m p => layerPointsAdd id (stringifyPoint p) m) m0, e.2 ≠ ∅ := by
  induction pts with
  | nil => intro m0 h; exact h
  | cons p pts ih =>
    intro m0 h
    rw [List.foldl_cons]
    exact ih _ (layerPointsAdd_nonempty id (stringifyPoint p) m0 h)

/-- C10: after `updateLayerPoints` on a shape whose layer is defined (and
whose map satisfies the nonempty-sets invariant), the shape's id appears in a
map entry exactly when that entry's key is the stringified coordinate of a
current point, every current point's key is present and holds the id, and
every stored set is nonempty. -/
theorem updateLayerPoints_spec (env : Env) (s : SState)
    (hld : layerDefined env s = true)
    (hne : ∀ e ∈ s.layerPoints, e.2 ≠ ∅) :
    (∀ e ∈ (updateLayerPoints env s).layerPoints,
      (s.id ∈ e.2 ↔ ∃ p ∈ s.points, e.1 = stringifyPoint p)) ∧
    (∀ p ∈ s.points, ∃ e ∈ (updateLayerPoints env s).layerPoints,
      e.1 = stringifyPoint p ∧ s.id ∈ e.2) ∧
    (∀ e ∈ (updateLayerPoints env s).layerPoints, e.2 ≠ ∅) := by
  unfold updateLayerPoints
  rw [if_pos hld]
  refine ⟨?_, ?_, ?_⟩
  · intro e he
    constructor
    · intro hid
      rcases layerPointsAddAll_mem_id s.id s.points _ e he hid with h | ⟨e0, he0, _, hid0⟩
      · exact h
      · exact absurd hid0 (layerPointsRemove_not_mem s.id s.layerPoints e0 he0)
    · intro ⟨p, hp, hkey⟩
      exact layerPointsAddAll_covers s.id s.points _ (fun _ => False)
        (fun e0 _ hfalse => hfalse.elim) e he (Or.inr ⟨p, hp, hkey⟩)
  · intro p hp
    exact layerPointsAddAll_mem s.id s.points _ p hp
  · exact layerPointsAddAll_nonempty s.id s.points _
      (layerPointsRemove_nonempty s.id s.layerPoints hne)

theorem updateLayerPoints_spec_witness :
    (∀ e ∈ (updateLayerPoints testEnv { freshState with
        layerPoints := [("k1", {7}), ("k2", {7, 9}), ("k3", {3})] }).layerPoints,
      ((7 : Nat) ∈ e.2 ↔ ∃ p ∈ [((0 : Int), (0 : Int)), (10, 0), (10, 10)],
        e.1 = stringifyPoint p)) ∧
    (∀ p ∈ [((0 : Int), (0 : Int)), (10, 0), (10, 10)],
      ∃ e ∈ (updateLayerPoints testEnv { freshState with
        layerPoints := [("k1", {7}), ("k2", {7, 9}), ("k3", {3})] }).layerPoints,
        e.1 = stringifyPoint p ∧ (7 : Nat) ∈ e.2) ∧
    (∀ e ∈ (updateLayerPoints testEnv { freshState with
        layerPoints := [("k1", {7}), ("k2", {7, 9}), ("k3", {3})] }).layerPoints,
      e.2 ≠ ∅) :=
  updateLayerPoints_spec testEnv
    { freshState with layerPoints := [("k1", {7}), ("k2", {7, 9}), ("k3", {3})] }
    (by decide) (by decide)

end PlanarAlly
